import Mathlib

/-!
Verification development for the propher latency reconciliation engine
(`measure_list_latency.go`).  The Go source is shallowly embedded: pure Go
functions become Lean functions over `Int` (with explicit two's-complement
wrapping where the source can overflow an `int64`), the reconciliation loop
becomes a step function over an explicit state driven by a trace of external
events, and external collaborators (Redis, the JSON decoder, the Go `time`
package) are modelled at their interface boundary.
-/

/-! ## Machine-integer model: Go `int64` arithmetic wraps on overflow. -/

/-- Wrap an unbounded integer into the `int64` range, mirroring Go's
two's-complement semantics. -/
def wrap64 (x : Int) : Int := (x + 2 ^ 63) % 2 ^ 64 - 2 ^ 63

/-- Go `int64` multiplication (wrapping). -/
def i64mul (a b : Int) : Int := wrap64 (a * b)

/-- Go `int64` subtraction (wrapping). -/
def i64sub (a b : Int) : Int := wrap64 (a - b)

/-! ## Go string helpers used by the source. -/

/-- Whitespace test matching Go `unicode.IsSpace` on the ASCII range (the
inputs the claims exercise are ASCII). -/
def isSpaceChar (c : Char) : Bool :=
  c = ' ' ∨ c = '\t' ∨ c = '\n' ∨ c = '\x0b' ∨ c = '\x0c' ∨ c = '\r'

/-- Go `strings.TrimSpace` / `bytes.TrimSpace` (ASCII model). -/
def goTrimSpace (s : String) : String :=
  ⟨((s.data.dropWhile isSpaceChar).reverse.dropWhile isSpaceChar).reverse⟩

/-- Lower-case one ASCII character, as Go `strings.ToLower` does on ASCII. -/
def charLower (c : Char) : Char :=
  if 'A' ≤ c ∧ c ≤ 'Z' then Char.ofNat (c.toNat + 32) else c

/-- Go `strings.ToLower` (ASCII model; unit tokens are ASCII). -/
def goToLower (s : String) : String := ⟨s.data.map charLower⟩

/-- Go `strings.ContainsAny(s, chars)`: does `s` contain any character of
`chars`? -/
def goContainsAny (s chars : String) : Bool :=
  s.data.any (fun c => chars.data.contains c)

/-- `normalizeUnit` from the source: `strings.ToLower(strings.TrimSpace(unit))`. -/
def normalizeUnit (unit : String) : String := goToLower (goTrimSpace unit)

/-! ## JSON value model.

`decodeJSONMap` in the source decodes with `json.Decoder.UseNumber()`, so a
decoded field is `nil`, a `json.Number`, a `string`, or some other Go value
(bool, array, object).  `num` holds a `json.Number` with an integral value
(`Int64()` succeeds); `numF` holds a `json.Number` literal whose `Int64()`
fails (non-integral); `other` carries the `fmt.Sprintf("%v", t)` rendering
used by `extractString`'s default branch. -/
inductive JsonVal where
  | null
  | num (n : Int)
  | numF (lit : String)
  | str (s : String)
  | other (goRepr : String)
deriving DecidableEq

/-- A decoded JSON object: field-name/value pairs (Go map lookup modelled as
first-match association-list lookup; the decoder keeps one entry per key). -/
abbrev JMap := List (String × JsonVal)

/-- Go `obj[field]` two-result map lookup. -/
def lookupJ (obj : JMap) (field : String) : Option JsonVal :=
  match obj with
  | [] => none
  | (k, v) :: rest => if k = field then some v else lookupJ rest field

/-- Go `strconv.ParseInt(s, 10, 64)`: optional sign, decimal digits,
`int64` range check. -/
def goParseInt (s : String) : Option Int :=
  let digitsToNat : List Char → Option Nat := fun cs =>
    if cs = [] then none
    else cs.foldl (fun acc c =>
      match acc with
      | none => none
      | some n => if '0' ≤ c ∧ c ≤ '9' then some (n * 10 + (c.toNat - 48)) else none)
      (some 0)
  let core : Option Int :=
    match s.data with
    | '+' :: rest => (digitsToNat rest).map (fun n => (n : Int))
    | '-' :: rest => (digitsToNat rest).map (fun n => -(n : Int))
    | l => (digitsToNat l).map (fun n => (n : Int))
  match core with
  | some n => if -(2 ^ 63) ≤ n ∧ n < 2 ^ 63 then some n else none
  | none => none

/-- `parseInt` from the source.  The `json.Number` case returns its integer
value or fails for a non-integral number; the `float64`/`int64` cases do not
arise under `UseNumber`; the `string` case trims and runs `strconv.ParseInt`;
anything else (including `nil`) hits the default "unsupported type" branch. -/
def parseInt (v : JsonVal) : Except String Int :=
  match v with
  | .num n => .ok n
  | .numF _ => .error "failed to parse json.Number"
  | .str s =>
      let t := goTrimSpace s
      if t = "" then .error "empty string"
      else match goParseInt t with
           | some n => .ok n
           | none => .error "invalid syntax"
  | .null => .error "unsupported type"
  | .other _ => .error "unsupported type"

/-- `extractString` from the source: `nil` fails; a string is trimmed and must
be non-empty; a `json.Number` yields its literal unconditionally; any other
value is rendered with `fmt.Sprintf("%v", ·)` and must be non-blank (the
untrimmed rendering is returned). -/
def extractString (v : JsonVal) : Option String :=
  match v with
  | .null => none
  | .str s =>
      let t := goTrimSpace s
      if t = "" then none else some t
  | .num n => some (toString n)
  | .numF lit => some lit
  | .other r => if goTrimSpace r = "" then none else some r

/-! ## Model of the Go `time` package calls (external standard library).

`parseFieldToEpoch` calls `time.Parse(time.RFC3339Nano, s)` and
`time.ParseInLocation("2006-01-02T15:04:05.999999", s, time.UTC)` and then
`Time.UnixMicro()`.  These are modelled here as executable parsers returning
the microsecond Unix epoch: strict `YYYY-MM-DDTHH:MM:SS`, an optional
fractional-second part of up to nine digits, and (for the RFC-3339 layout) a
`Z` designator or a numeric `±HH:MM` offset. -/

/-- Value of one decimal digit character. -/
def digitVal? (c : Char) : Option Nat :=
  if '0' ≤ c ∧ c ≤ '9' then some (c.toNat - 48) else none

/-- Read exactly `k` decimal digits, returning their value and the rest. -/
def readNDigits : Nat → List Char → Option (Nat × List Char)
  | 0, cs => some (0, cs)
  | Nat.succ _, [] => none
  | Nat.succ k, c :: cs =>
      match digitVal? c with
      | none => none
      | some d =>
          match readNDigits k cs with
          | none => none
          | some (rest, cs') => some (d * 10 ^ k + rest, cs')

/-- Consume one expected character. -/
def expectChar (c : Char) : List Char → Option (List Char)
  | [] => none
  | x :: xs => if x = c then some xs else none

/-- Read a fractional-second digit run (1 to 9 digits) and return its value
in microseconds (`UnixMicro` truncates sub-microsecond digits). -/
def readFrac (cs : List Char) : Option (Nat × List Char) :=
  let ds := cs.takeWhile (fun c => decide ('0' ≤ c ∧ c ≤ '9'))
  if 1 ≤ ds.length ∧ ds.length ≤ 9 then
    let v := ds.foldl (fun acc c => acc * 10 + (c.toNat - 48)) 0
    some (v * 10 ^ (9 - ds.length) / 1000, cs.drop ds.length)
  else none

/-- Gregorian leap-year test. -/
def isLeap (y : Int) : Bool := (y % 4 = 0 ∧ y % 100 ≠ 0) ∨ y % 400 = 0

/-- Days in a month of the proleptic Gregorian calendar. -/
def daysInMonth (y m : Int) : Int :=
  if m = 2 then (if isLeap y then 29 else 28)
  else if m = 4 ∨ m = 6 ∨ m = 9 ∨ m = 11 then 30
  else 31

/-- Days since 1970-01-01 of the civil date `y-m-d` (Gregorian). -/
def daysFromCivil (y m d : Int) : Int :=
  let y2 := if m ≤ 2 then y - 1 else y
  let era := (if 0 ≤ y2 then y2 else y2 - 399) / 400
  let yoe := y2 - era * 400
  let doy := (153 * (m + (if m > 2 then -3 else 9)) + 2) / 5 + d - 1
  let doe := yoe * 365 + yoe / 4 - yoe / 100 + doy
  era * 146097 + doe - 719468

/-- Parse `YYYY-MM-DDTHH:MM:SS[.frac]`, returning the epoch second of the
field values read as UTC, the fractional microseconds, and the remaining
characters. -/
def parseDateTimeCore (cs : List Char) : Option (Int × Nat × List Char) :=
  match readNDigits 4 cs with
  | none => none
  | some (y, cs) =>
  match expectChar '-' cs with
  | none => none
  | some cs =>
  match readNDigits 2 cs with
  | none => none
  | some (mo, cs) =>
  match expectChar '-' cs with
  | none => none
  | some cs =>
  match readNDigits 2 cs with
  | none => none
  | some (d, cs) =>
  match expectChar 'T' cs with
  | none => none
  | some cs =>
  match readNDigits 2 cs with
  | none => none
  | some (h, cs) =>
  match expectChar ':' cs with
  | none => none
  | some cs =>
  match readNDigits 2 cs with
  | none => none
  | some (mi, cs) =>
  match expectChar ':' cs with
  | none => none
  | some cs =>
  match readNDigits 2 cs with
  | none => none
  | some (sec, cs) =>
  if 1 ≤ mo ∧ mo ≤ 12 ∧ 1 ≤ d ∧ (d : Int) ≤ daysInMonth (y : Int) (mo : Int)
      ∧ h ≤ 23 ∧ mi ≤ 59 ∧ sec ≤ 59 then
    let fracRest : Option (Nat × List Char) :=
      match cs with
      | '.' :: rest => readFrac rest
      | _ => some (0, cs)
    match fracRest with
    | none => none
    | some (fr, cs) =>
        some (daysFromCivil (y : Int) (mo : Int) (d : Int) * 86400
                + (h * 3600 + mi * 60 + sec : Nat), fr, cs)
  else none

/-- Modelled from the spec: Go `time.Parse(time.RFC3339Nano, s)` followed by
`UnixMicro()` — the Go standard library call is external to this repository.
Accepts `date T time [.frac]` followed by `Z` or a `±HH:MM` numeric offset. -/
def parseRFC3339Micro (s : String) : Option Int :=
  match parseDateTimeCore s.data with
  | none => none
  | some (base, fr, cs) =>
      match cs with
      | ['Z'] => some (base * 1000000 + (fr : Int))
      | c :: rest =>
          if c = '+' ∨ c = '-' then
            match readNDigits 2 rest with
            | none => none
            | some (oh, r1) =>
                match expectChar ':' r1 with
                | none => none
                | some r2 =>
                    match readNDigits 2 r2 with
                    | none => none
                    | some (om, r3) =>
                        if r3 = [] ∧ oh ≤ 23 ∧ om ≤ 59 then
                          let off : Int := (oh * 3600 + om * 60 : Nat)
                          let off := if c = '-' then -off else off
                          some ((base - off) * 1000000 + (fr : Int))
                        else none
          else none
      | [] => none

/-- Modelled from the spec: Go
`time.ParseInLocation("2006-01-02T15:04:05.999999", s, time.UTC)` followed by
`UnixMicro()` — external standard library.  Same date-time core, no zone
designator, interpreted as UTC. -/
def parseNaiveIsoMicro (s : String) : Option Int :=
  match parseDateTimeCore s.data with
  | none => none
  | some (base, fr, cs) =>
      if cs = [] then some (base * 1000000 + (fr : Int)) else none

/-! ## `parseFieldToEpoch` (source lines 123-185). -/

/-- The ISO-string branch selection of `parseFieldToEpoch`:
`none` — no parse attempted (the trimmed string has none of `T`, `:`, `-`,
so `num` stays `0` with `err == nil`);
`some none` — a parse was attempted and failed (`num == 0 && err != nil`);
`some (some t)` — the attempted parse succeeded with `UnixMicro() == t`. -/
def isoAttempt (trimmed : String) : Option (Option Int) :=
  if goContainsAny trimmed "T:-" ∧ goContainsAny trimmed "Z" then
    some (parseRFC3339Micro trimmed)
  else if goContainsAny trimmed "T:-" then
    some (parseNaiveIsoMicro trimmed)
  else none

/-- The unit switch at the end of `parseFieldToEpoch` (source lines 159-184).
Note `abs := num` in the source is a plain copy, not an absolute value. -/
def unitConv (num : Int) (unit : String) : Except String Int :=
  let u := normalizeUnit unit
  let abs := num
  if u = "auto" then
    if abs ≥ 1000000000000000 then .ok num
    else if abs ≥ 1000000000000 then .ok (i64mul num 1000)
    else if abs ≥ 1000000000 then .ok (i64mul num 1000000)
    else .error "unknown epoch precision"
  else if u = "s" then .ok (i64mul num 1000000)
  else if u = "ms" then .ok (i64mul num 1000)
  else if u = "us" then .ok num
  else .error ("unsupported unit " ++ unit)

/-- `parseFieldToEpoch` from the source.  For a string: trim, fail if empty,
run the ISO branch selection; a failed attempt faults at the
`num == 0 && err != nil` check, otherwise the (possibly still-zero) `num`
falls through to the unit switch.  For any non-string, non-nil value:
`parseInt`, then the unit switch. -/
def parseFieldToEpoch (v : JsonVal) (unit : String) : Except String Int :=
  match v with
  | .null => .error "nil value"
  | .str s =>
      let trimmed := goTrimSpace s
      if trimmed = "" then .error "empty string"
      else
        match isoAttempt trimmed with
        | some (some t) => unitConv t unit
        | some none => .error ("failed to parse " ++ trimmed)
        | none => unitConv 0 unit
  | v =>
      match parseInt v with
      | .ok n => unitConv n unit
      | .error e => .error e

/-! ## Source index builder: `loadSourceIndex` (source lines 231-294). -/

/-- `sourceRecord` from the source: normalized send epoch plus the original
raw bytes of the line (retained verbatim, after `bytes.TrimSpace`). -/
structure SourceRecord where
  sentUs : Int
  raw : String
deriving DecidableEq

/-- The in-memory correlation index `map[string]sourceRecord`, modelled as an
association list in insertion order with unique keys by construction. -/
abbrev Index := List (String × SourceRecord)

/-- Map lookup `index[msgID]`. -/
def lookupIdx (idx : Index) (k : String) : Option SourceRecord :=
  match idx with
  | [] => none
  | (k', r) :: rest => if k' = k then some r else lookupIdx rest k

/-- The keys of the index. -/
def idxKeys (idx : Index) : List String := idx.map Prod.fst

/-- `sourceIndexStats` from the source. -/
structure SourceIndexStats where
  total : Nat
  indexed : Nat
  bad : Nat
  duplicates : Nat
deriving DecidableEq

/-- One line of the source dump as the scanner delivers it: the raw bytes and
the result of `decodeJSONMap` on the trimmed bytes (`none` = not a valid JSON
object; the decoder itself is external `encoding/json`). -/
structure SrcLine where
  raw : String
  decoded : Option JMap

/-- The per-line validation chain of `loadSourceIndex`, up to but excluding
the duplicate check: trim; an empty, non-JSON, id-missing, id-non-coercible,
send-time-missing or send-time-unparsable line yields `none` (counted "bad"
by the caller); otherwise the extracted id, normalized epoch and trimmed raw
bytes. -/
def lineEntry (idField sentField unit : String) (ln : SrcLine) :
    Option (String × Int × String) :=
  let trimmed := goTrimSpace ln.raw
  if trimmed = "" then none
  else match ln.decoded with
    | none => none
    | some obj =>
      match lookupJ obj idField with
      | none => none
      | some idVal =>
        match extractString idVal with
        | none => none
        | some msgID =>
          match lookupJ obj sentField with
          | none => none
          | some sentVal =>
            match parseFieldToEpoch sentVal unit with
            | .error _ => none
            | .ok e => some (msgID, e, trimmed)

/-- One iteration of the `loadSourceIndex` scan loop.  Every failing
validation in the source does exactly `stats.Bad++; continue`, so the chain is
factored through `lineEntry`; a valid line whose id is already present does
`stats.Duplicates++; continue` (first occurrence wins); otherwise the record
is inserted and `stats.Indexed++`. -/
def processLine (idField sentField unit : String)
    (acc : Index × SourceIndexStats) (ln : SrcLine) : Index × SourceIndexStats :=
  let idx := acc.1
  let st := { acc.2 with total := acc.2.total + 1 }
  match lineEntry idField sentField unit ln with
  | none => (idx, { st with bad := st.bad + 1 })
  | some (msgID, sentUs, raw) =>
      if (lookupIdx idx msgID).isSome then
        (idx, { st with duplicates := st.duplicates + 1 })
      else
        (idx ++ [(msgID, ⟨sentUs, raw⟩)], { st with indexed := st.indexed + 1 })

/-- `loadSourceIndex` over the scanned lines (file opening and scanner errors
are outside the claims; they abort before any line is processed). -/
def loadSourceIndex (idField sentField unit : String) (lines : List SrcLine) :
    Index × SourceIndexStats :=
  lines.foldl (processLine idField sentField unit) ([], ⟨0, 0, 0, 0⟩)

/-! ## Stats aggregator: `percentile` (source lines 58-72).

The source computes the index with `float64` arithmetic
(`int(math.Ceil(q*float64(n)) - 1)`); it is modelled here in exact rational
arithmetic.  `float64` rounding is monotone, so the monotonicity properties
proved below are unaffected by the substitution. -/

/-- The clamped nearest-rank index of `percentile`. -/
def percIdx (n : Nat) (q : ℚ) : Int :=
  let idx1 : Int := ⌈q * (n : ℚ)⌉ - 1
  let idx2 : Int := if idx1 < 0 then 0 else idx1
  if idx2 ≥ (n : Int) then (n : Int) - 1 else idx2

/-- `percentile` from the source: `0` on an empty series, otherwise the sample
at the clamped nearest-rank index. -/
def percentile (sortedVals : List Int) (q : ℚ) : Int :=
  let n := sortedVals.length
  if n = 0 then 0
  else sortedVals.getD (percIdx n q).toNat 0

/-! ## Reconciliation loop: `RunMeasureListLatency` (source lines 353-696).

The loop is embedded as a step function over an explicit state, driven by a
trace of external events (deadline firing, empty dequeue, fatal transport
error, or a dequeued message with its decode result and read time). -/

/-- The configuration fields the loop body reads (validated non-empty before
the loop starts). -/
structure MeasureCfg where
  messageIDField : String
  t0Field : String
  t0Unit : String
deriving DecidableEq

/-- `Record` from the source: the per-message outcome written as one JSONL
line. -/
structure Record where
  ok : Bool := false
  error : String := ""
  messageID : String := ""
  sourceSentUs : Option Int := none
  resultSentUs : Option Int := none
  serveUs : Option Int := none
  latencyUs : Option Int := none
deriving DecidableEq

/-- The loop-local mutable state: counters, the found set (insertion order,
no duplicates by construction), the two sample series, and the sequence of
records written to the output JSONL so far. -/
structure LoopState where
  total : Nat := 0
  okCount : Nat := 0
  badCount : Nat := 0
  found : List String := []
  foundCount : Nat := 0
  serveTimes : List Int := []
  latencies : List Int := []
  records : List Record := []
deriving DecidableEq

/-- The initial loop state. -/
def initState : LoopState := {}

/-- Append one record to the state, with the bad counter bumped. -/
def emitBad (s : LoopState) (r : Record) : LoopState :=
  { s with badCount := s.badCount + 1, records := s.records ++ [r] }

/-- The found-set update (source lines 494-499): a first sighting of an
indexed id is added to the found set and counted; anything else leaves the
state unchanged. -/
def foundUpd (idx : Index) (msgID : String) (s : LoopState) : LoopState :=
  if (lookupIdx idx msgID).isSome ∧ msgID ∉ s.found then
    { s with found := s.found ++ [msgID], foundCount := s.foundCount + 1 }
  else s

/-- The result send-time extraction (source lines 503-509): the `t0` field,
if present and non-nil, run through the Epoch Normalizer; any failure leaves
`resultSentUs` nil. -/
def resultSentOf (cfg : MeasureCfg) (obj : JMap) : Option Int :=
  match lookupJ obj cfg.t0Field with
  | none => none
  | some .null => none
  | some v => (parseFieldToEpoch v cfg.t0Unit).toOption

/-- Process one dequeued message (source lines 453-592): body of the loop
after a successful `BRPOPLPUSH`, from `total++` to the per-branch
`shouldStop` checks.  `decoded` is the result of `decodeJSONMap(raw)`
(`none` = parse error); `ts` is the read time in microseconds.  Returns the
new state and whether the loop breaks with the all-found stop. -/
def stepMsg (cfg : MeasureCfg) (idx : Index) (s : LoopState)
    (decoded : Option JMap) (ts : Int) : LoopState × Bool :=
  let s := { s with total := s.total + 1 }
  let r0 : Record := {}
  match decoded with
  | none => (emitBad s { r0 with error := "json_parse_error" }, false)
  | some obj =>
    match lookupJ obj cfg.messageIDField with
    | none => (emitBad s { r0 with error := "missing_" ++ cfg.messageIDField }, false)
    | some idVal =>
      match extractString idVal with
      | none => (emitBad s { r0 with error := "bad_" ++ cfg.messageIDField }, false)
      | some msgID =>
        let r1 := { r0 with messageID := msgID }
        let s := foundUpd idx msgID s
        let shouldStop := decide (s.foundCount ≥ idx.length)
        let resultSentUs := resultSentOf cfg obj
        let r2 := { r1 with resultSentUs := resultSentUs }
        match resultSentUs with
        | none =>
            (emitBad s { r2 with error := "missing_or_bad_" ++ cfg.t0Field }, shouldStop)
        | some rsu =>
          match lookupIdx idx msgID with
          | none => (emitBad s { r2 with error := "source_not_found" }, shouldStop)
          | some srcRec =>
            let r3 := { r2 with sourceSentUs := some srcRec.sentUs }
            let serveUs := i64sub rsu srcRec.sentUs
            if serveUs < 0 then
              (emitBad s { r3 with error := "result_sent_before_source" }, shouldStop)
            else
              let lat := i64sub ts rsu
              if lat < 0 then
                (emitBad s { r3 with error := "result_sent_in_future" }, shouldStop)
              else
                let r4 := { r3 with ok := true, serveUs := some serveUs,
                                    latencyUs := some lat }
                ({ s with okCount := s.okCount + 1,
                          serveTimes := s.serveTimes ++ [serveUs],
                          latencies := s.latencies ++ [lat],
                          records := s.records ++ [r4] }, shouldStop)

/-- One external event per loop iteration: the wall-clock deadline has passed
at the top of the loop, the bounded dequeue came back empty (`redis.Nil`),
the dequeue failed fatally, or a message was moved with decode result and
read time. -/
inductive LoopInput where
  | deadline
  | empty
  | fatal (e : String)
  | msg (decoded : Option JMap) (ts : Int)
deriving DecidableEq

/-- Why the loop stopped.  `outOfFuel` marks a trace that ran out of events
without a stop condition — the real loop would keep polling; no theorem
depends on this case. -/
inductive ExitReason where
  | timeout
  | allFound
  | fatalErr (e : String)
  | outOfFuel
deriving DecidableEq

/-- The main measurement loop (source lines 438-593). -/
def runLoop (cfg : MeasureCfg) (idx : Index) :
    List LoopInput → LoopState → ExitReason × LoopState
  | [], s => (.outOfFuel, s)
  | .deadline :: _, s => (.timeout, s)
  | .empty :: rest, s => runLoop cfg idx rest s
  | .fatal e :: _, s => (.fatalErr e, s)
  | .msg d ts :: rest, s =>
      let (s', stop) := stepMsg cfg idx s d ts
      if stop then (.allFound, s') else runLoop cfg idx rest s'

/-! ## Lost-message exporter (source lines 598-612). -/

/-- Insert into a string list kept in ascending order. -/
def insertSorted (x : String) : List String → List String
  | [] => [x]
  | y :: ys => if x ≤ y then x :: y :: ys else y :: insertSorted x ys

/-- Sort strings ascending (models `sort.Strings`, external standard
library). -/
def sortStrs : List String → List String
  | [] => []
  | x :: xs => insertSorted x (sortStrs xs)

/-- The lost manifest: the raw bytes of every indexed id not in the found
set, in id-sorted order. -/
def lostManifest (idx : Index) (found : List String) : List String :=
  let lostIDs := (idxKeys idx).filter (fun k => !(decide (k ∈ found)))
  (sortStrs lostIDs).map (fun i =>
    match lookupIdx idx i with
    | some r => r.raw
    | none => "")

/-- The aggregate stats file fields the claims reason about. -/
structure StatsOut where
  totalRead : Nat
  okCount : Nat
  badCount : Nat
deriving DecidableEq

/-- Observable result of one invocation after the source index is built: the
loop exit, the final loop state, the per-record JSONL lines, the lost-manifest
writes, the stats-file writes, and the fatal error if the run aborted. -/
structure RunResult where
  exit : ExitReason
  final : LoopState
  recordsOut : List Record
  lostWrites : List (List String)
  statsWrites : List StatsOut
  err : Option String
deriving DecidableEq

/-- `RunMeasureListLatency` after index construction (source lines 438-665):
run the loop; a fatal transport error returns immediately (already-written
records preserved, nothing else written); otherwise the lost manifest is
written once and then the stats file once. -/
def runMeasure (cfg : MeasureCfg) (idx : Index) (inputs : List LoopInput) :
    RunResult :=
  let (exit, s) := runLoop cfg idx inputs initState
  match exit with
  | .fatalErr e =>
      { exit := .fatalErr e, final := s, recordsOut := s.records,
        lostWrites := [], statsWrites := [], err := some e }
  | ex =>
      { exit := ex, final := s, recordsOut := s.records,
        lostWrites := [lostManifest idx s.found],
        statsWrites := [⟨s.total, s.okCount, s.badCount⟩], err := none }

/-! ## Restore controller (source lines 668-694). -/

/-- Result of the restore phase: the final observation and hold lists, the
number of items moved back, and the refusal error if any. -/
structure RestoreResult where
  err : Option String
  obs : List String
  hold : List String
  moved : Nat
deriving DecidableEq

/-- The `RPopLPush hold → obs` drain: repeatedly pop the last element of the
hold list and push it onto the head of the observation list, counting moves.
Iterates over the reversed hold list (pop-from-tail order). -/
def restoreMoves : List String → List String → Nat → List String × Nat
  | [], obs, moved => (obs, moved)
  | x :: rest, obs, moved => restoreMoves rest (x :: obs) (moved + 1)

/-- The restore phase (source lines 668-694): under the verify-empty
precondition a non-empty observation list refuses restore before any move;
otherwise the hold list is drained back onto the observation list. -/
def runRestore (verify : Bool) (obs hold : List String) : RestoreResult :=
  if verify ∧ obs.length ≠ 0 then
    { err := some "refuse restore: obs-queue is not empty", obs := obs,
      hold := hold, moved := 0 }
  else
    let (obs', moved) := restoreMoves hold.reverse obs 0
    { err := none, obs := obs', hold := [], moved := moved }

/-! ## Concrete fixtures used by the witnesses. -/

/-- Witness configuration. -/
def wCfg : MeasureCfg := ⟨"message_id", "sent_epoch", "us"⟩

/-- Witness index: one record with id `a`. -/
def wIdx : Index := [("a", ⟨1000000, "rawA"⟩)]

/-- Witness decoded message matching id `a`. -/
def wObj : JMap := [("message_id", .str "a"), ("sent_epoch", .num 1005000)]

/-- Witness source-dump lines producing `wIdx`. -/
def wLines : List SrcLine :=
  [⟨"rawA", some [("message_id", .str "a"), ("sent_epoch", .num 1000000)]⟩]

/-- Witness duplicate-id dump, first line. -/
def wDupLine1 : SrcLine :=
  ⟨"l1", some [("message_id", .str "a"), ("sent_epoch", .num 1000000)]⟩

/-- Witness duplicate-id dump, second line with the same id. -/
def wDupLine2 : SrcLine :=
  ⟨"l2", some [("message_id", .str "a"), ("sent_epoch", .num 2000000)]⟩

/-! ## Helper lemmas. -/

theorem wrap64_eq_self {x : Int} (h1 : -(2 ^ 63) ≤ x) (h2 : x < 2 ^ 63) :
    wrap64 x = x := by
  unfold wrap64
  have hge : (0 : Int) ≤ x + 2 ^ 63 := by omega
  have hlt : x + 2 ^ 63 < 2 ^ 64 := by omega
  rw [Int.emod_eq_of_lt hge hlt]
  omega

theorem i64mul_eq {a b : Int} (h1 : -(2 ^ 63) ≤ a * b) (h2 : a * b < 2 ^ 63) :
    i64mul a b = a * b := wrap64_eq_self h1 h2

theorem unitConv_auto_ge (t : Int) (ht : 1000000000000000 ≤ t) :
    unitConv t "auto" = .ok t := by
  have hu : normalizeUnit "auto" = "auto" := rfl
  simp only [unitConv, hu]
  split_ifs with h1 h2 <;> first | rfl | omega

theorem sorted_getD_mono {l : List Int} (hs : l.Sorted (· ≤ ·)) {i j : Nat}
    (hij : i ≤ j) (hj : j < l.length) : l.getD i 0 ≤ l.getD j 0 := by
  have hi : i < l.length := lt_of_le_of_lt hij hj
  rw [List.getD_eq_getElem l 0 hi, List.getD_eq_getElem l 0 hj]
  have h := hs.rel_get_of_le (a := ⟨i, hi⟩) (b := ⟨j, hj⟩) hij
  simpa using h

theorem percIdx_bounds (n : Nat) (q : ℚ) (hn : 1 ≤ n) :
    0 ≤ percIdx n q ∧ percIdx n q < (n : Int) := by
  simp only [percIdx]
  split_ifs <;> omega

theorem percIdx_mono (n : Nat) {q1 q2 : ℚ} (h : q1 ≤ q2) :
    percIdx n q1 ≤ percIdx n q2 := by
  have hc : ⌈q1 * (n : ℚ)⌉ ≤ ⌈q2 * (n : ℚ)⌉ :=
    Int.ceil_le_ceil (mul_le_mul_of_nonneg_right h (by positivity))
  simp only [percIdx]
  split_ifs <;> omega

theorem percentile_mono {l : List Int} (hs : l.Sorted (· ≤ ·)) (hne : l ≠ [])
    {q1 q2 : ℚ} (h : q1 ≤ q2) : percentile l q1 ≤ percentile l q2 := by
  have hn : 1 ≤ l.length := List.length_pos.mpr hne
  have hb1 := percIdx_bounds l.length q1 hn
  have hb2 := percIdx_bounds l.length q2 hn
  have hm := percIdx_mono l.length h
  simp only [percentile]
  rw [if_neg (by omega), if_neg (by omega)]
  refine sorted_getD_mono hs (i := (percIdx l.length q1).toNat)
    (j := (percIdx l.length q2).toNat) (by omega) (by omega)

theorem percentile_le_max {l : List Int} (hs : l.Sorted (· ≤ ·)) (hne : l ≠ [])
    (q : ℚ) : percentile l q ≤ l.getD (l.length - 1) 0 := by
  have hn : 1 ≤ l.length := List.length_pos.mpr hne
  have hb := percIdx_bounds l.length q hn
  simp only [percentile]
  rw [if_neg (by omega)]
  refine sorted_getD_mono hs (i := (percIdx l.length q).toNat)
    (j := l.length - 1) (by omega) (by omega)

/-! ## Claim C4: numeric input with unit hint `auto`. -/

/-- C4: for numeric input `n` with unit hint `auto`, the Epoch Normalizer
returns `n` unchanged when `n ≥ 1e15`, `n × 1000` when `1e12 ≤ n < 1e15`,
`n × 1e6` when `1e9 ≤ n < 1e12`, and fails when `n < 1e9`. -/
theorem parseFieldToEpoch_auto_bands (n : Int) :
    (1000000000000000 ≤ n → parseFieldToEpoch (.num n) "auto" = .ok n) ∧
    (1000000000000 ≤ n → n < 1000000000000000 →
      parseFieldToEpoch (.num n) "auto" = .ok (n * 1000)) ∧
    (1000000000 ≤ n → n < 1000000000000 →
      parseFieldToEpoch (.num n) "auto" = .ok (n * 1000000)) ∧
    (n < 1000000000 →
      parseFieldToEpoch (.num n) "auto" = .error "unknown epoch precision") := by
  have hu : normalizeUnit "auto" = "auto" := rfl
  have hpe : parseFieldToEpoch (.num n) "auto" = unitConv n "auto" := rfl
  refine ⟨fun h1 => ?_, fun h1 h2 => ?_, fun h1 h2 => ?_, fun h1 => ?_⟩ <;>
    rw [hpe] <;> simp only [unitConv, hu] <;> split_ifs <;>
    first
      | rfl
      | omega
      | (rw [i64mul_eq (by omega) (by omega)])

/-- Witness for C4 at the concrete inputs named by the claim. -/
theorem parseFieldToEpoch_auto_bands_witness :
    parseFieldToEpoch (.num 1700000000) "auto" = .ok 1700000000000000 ∧
    parseFieldToEpoch (.num 1700000000000) "auto" = .ok 1700000000000000 ∧
    parseFieldToEpoch (.num 1700000000000000) "auto" = .ok 1700000000000000 ∧
    parseFieldToEpoch (.num 123) "auto" = .error "unknown epoch precision" := by
  refine ⟨?_, ?_, ?_, ?_⟩
  · exact ((parseFieldToEpoch_auto_bands 1700000000).2.2.1 (by norm_num)
      (by norm_num)).trans (congrArg Except.ok (by norm_num))
  · exact ((parseFieldToEpoch_auto_bands 1700000000000).2.1 (by norm_num)
      (by norm_num)).trans (congrArg Except.ok (by norm_num))
  · exact (parseFieldToEpoch_auto_bands 1700000000000000).1 (by norm_num)
  · exact (parseFieldToEpoch_auto_bands 123).2.2.2 (by norm_num)

/-! ## Claim C3: purely numeric string inputs. -/

/-- C3: a purely numeric string never reaches the numeric fallback.  The
trimmed string "1700000000" contains none of `T`, `:`, `-`, so no ISO parse
is attempted and `num` stays `0`: explicit units convert `0` (succeeding with
epoch `0`), `auto` fails on magnitude.  The final conjunct shows `parseInt`
itself would have parsed the string — the string case of `parseInt` is
unreachable from `parseFieldToEpoch`. -/
theorem parseFieldToEpoch_numeric_string_bug :
    parseFieldToEpoch (.str "1700000000") "s" = .ok 0 ∧
    parseFieldToEpoch (.str "1700000000") "ms" = .ok 0 ∧
    parseFieldToEpoch (.str "1700000000") "us" = .ok 0 ∧
    parseFieldToEpoch (.str "1700000000") "auto" =
      .error "unknown epoch precision" ∧
    parseInt (.str "1700000000") = .ok 1700000000 :=
  ⟨rfl, rfl, rfl, rfl, rfl⟩

/-! ## Claim C1: the ISO-string path and the unit hint. -/

/-- Counterexample to C1: for the successfully parsed RFC-3339 input
"2023-11-14T22:13:20Z" (epoch 1700000000000000 µs), the unit hint is not
ignored — hint `us` returns the parsed value but hint `ms` multiplies it by
1000, so the results differ across unit hints. -/
theorem parseFieldToEpoch_iso_hint_not_ignored :
    parseRFC3339Micro "2023-11-14T22:13:20Z" = some 1700000000000000 ∧
    parseFieldToEpoch (.str "2023-11-14T22:13:20Z") "us" = .ok 1700000000000000 ∧
    parseFieldToEpoch (.str "2023-11-14T22:13:20Z") "ms" =
      .ok 1700000000000000000 ∧
    (1700000000000000000 : Int) ≠ 1700000000000000 :=
  ⟨rfl, rfl, rfl, by norm_num⟩

/-- C1 (amended): on the ISO-string path the parsed microsecond value is not
returned directly; it flows through the same unit switch as numeric input.
It is returned unchanged for hint `us`, and for hint `auto` exactly when the
parsed value is at least 1e15; hint `ms` multiplies it by 1000. -/
theorem parseFieldToEpoch_iso_path_conv (s : String) (t : Int) (u : String)
    (h : isoAttempt (goTrimSpace s) = some (some t)) :
    parseFieldToEpoch (.str s) u = unitConv t u ∧
    parseFieldToEpoch (.str s) "us" = .ok t ∧
    (1000000000000000 ≤ t → parseFieldToEpoch (.str s) "auto" = .ok t) ∧
    parseFieldToEpoch (.str s) "ms" = .ok (i64mul t 1000) := by
  have h0 : isoAttempt "" = none := rfl
  have hne : ¬ goTrimSpace s = "" := by
    intro he
    rw [he, h0] at h
    exact Option.noConfusion h
  have hconv : ∀ u' : String, parseFieldToEpoch (.str s) u' = unitConv t u' := by
    intro u'
    simp only [parseFieldToEpoch]
    rw [if_neg hne, h]
  refine ⟨hconv u, ?_, fun ht => ?_, ?_⟩
  · rw [hconv "us"]; rfl
  · rw [hconv "auto"]; exact unitConv_auto_ge t ht
  · rw [hconv "ms"]; rfl

/-- Witness for the amended C1 at the concrete RFC-3339 input. -/
theorem parseFieldToEpoch_iso_path_conv_witness :
    parseFieldToEpoch (.str "2023-11-14T22:13:20Z") "us" = .ok 1700000000000000 ∧
    parseFieldToEpoch (.str "2023-11-14T22:13:20Z") "auto" = .ok 1700000000000000 := by
  have h := parseFieldToEpoch_iso_path_conv "2023-11-14T22:13:20Z"
    1700000000000000 "us" (by decide)
  exact ⟨h.2.1, h.2.2.1 (by norm_num)⟩

/-! ## Claim C9: restore with the verify-empty precondition. -/

theorem restoreMoves_spec (l obs : List String) (m : Nat) :
    restoreMoves l obs m = (l.reverse ++ obs, m + l.length) := by
  induction l generalizing obs m with
  | nil => simp [restoreMoves]
  | cons x xs ih =>
      simp only [restoreMoves, ih, List.reverse_cons, List.append_assoc,
        List.singleton_append, List.length_cons]
      exact Prod.ext rfl (by omega)

/-- C9: with the verify-empty precondition set, a non-empty observation list
makes restore fail with no moves at all — both lists unchanged; with an empty
observation list the hold list is fully drained back. -/
theorem runRestore_verify (obs hold : List String) (h : obs.length ≠ 0) :
    (runRestore true obs hold).err.isSome = true ∧
    (runRestore true obs hold).obs = obs ∧
    (runRestore true obs hold).hold = hold ∧
    (runRestore true obs hold).moved = 0 ∧
    (∀ hold2 : List String,
      runRestore true [] hold2 =
        { err := none, obs := hold2, hold := [], moved := hold2.length }) := by
  have hif : runRestore true obs hold =
      { err := some "refuse restore: obs-queue is not empty", obs := obs,
        hold := hold, moved := 0 } := by
    unfold runRestore
    rw [if_pos ⟨rfl, h⟩]
  refine ⟨by rw [hif]; rfl, by rw [hif], by rw [hif], by rw [hif], fun hold2 => ?_⟩
  simp only [runRestore]
  rw [if_neg (by simp)]
  simp [restoreMoves_spec]

/-- Witness for C9 at concrete lists. -/
theorem runRestore_verify_witness :
    (runRestore true ["x"] ["a", "b"]).err.isSome = true ∧
    (runRestore true ["x"] ["a", "b"]).obs = ["x"] ∧
    (runRestore true ["x"] ["a", "b"]).hold = ["a", "b"] ∧
    (runRestore true ["x"] ["a", "b"]).moved = 0 ∧
    runRestore true [] ["a", "b"] =
      { err := none, obs := ["a", "b"], hold := [], moved := 2 } := by
  have h := runRestore_verify ["x"] ["a", "b"] (by decide)
  exact ⟨h.1, h.2.1, h.2.2.1, h.2.2.2.1, h.2.2.2.2 ["a", "b"]⟩

/-! ## Claim C8: percentile monotonicity. -/

/-- C8: for every non-empty ascending sample series the nearest-rank
percentile is monotone in the quantile, so `p50 ≤ p90 ≤ p95 ≤ p99 ≤ max`
(the maximum being the last element, as the source reads it). -/
theorem percentile_chain (l : List Int) (hne : l ≠ []) (hs : l.Sorted (· ≤ ·)) :
    (∀ q1 q2 : ℚ, q1 ≤ q2 → percentile l q1 ≤ percentile l q2) ∧
    percentile l (50 / 100) ≤ percentile l (90 / 100) ∧
    percentile l (90 / 100) ≤ percentile l (95 / 100) ∧
    percentile l (95 / 100) ≤ percentile l (99 / 100) ∧
    percentile l (99 / 100) ≤ l.getD (l.length - 1) 0 :=
  ⟨fun _ _ h => percentile_mono hs hne h,
   percentile_mono hs hne (by norm_num),
   percentile_mono hs hne (by norm_num),
   percentile_mono hs hne (by norm_num),
   percentile_le_max hs hne _⟩

/-- Witness for C8 on a concrete sorted series. -/
theorem percentile_chain_witness :
    percentile [3, 7, 7, 9] (50 / 100) ≤ percentile [3, 7, 7, 9] (90 / 100) ∧
    percentile [3, 7, 7, 9] (99 / 100) ≤
      [3, 7, 7, 9].getD ([3, 7, 7, 9].length - 1) 0 := by
  have h := percentile_chain [3, 7, 7, 9] (by decide) (by decide)
  exact ⟨h.2.1, h.2.2.2.2⟩

/-! ## Step-shape lemmas for the reconciliation loop. -/

theorem foundUpd_total (idx : Index) (m : String) (s : LoopState) :
    (foundUpd idx m s).total = s.total := by
  unfold foundUpd; split <;> rfl

theorem foundUpd_okCount (idx : Index) (m : String) (s : LoopState) :
    (foundUpd idx m s).okCount = s.okCount := by
  unfold foundUpd; split <;> rfl

theorem foundUpd_badCount (idx : Index) (m : String) (s : LoopState) :
    (foundUpd idx m s).badCount = s.badCount := by
  unfold foundUpd; split <;> rfl

theorem foundUpd_records (idx : Index) (m : String) (s : LoopState) :
    (foundUpd idx m s).records = s.records := by
  unfold foundUpd; split <;> rfl

theorem foundUpd_cases (idx : Index) (m : String) (s : LoopState) :
    foundUpd idx m s = s ∨
    ((lookupIdx idx m).isSome = true ∧ m ∉ s.found ∧
      foundUpd idx m s =
        { s with found := s.found ++ [m], foundCount := s.foundCount + 1 }) := by
  unfold foundUpd; split_ifs with h
  · exact Or.inr ⟨h.1, h.2, rfl⟩
  · exact Or.inl rfl

theorem stepMsg_total (cfg : MeasureCfg) (idx : Index) (s : LoopState)
    (d : Option JMap) (ts : Int) :
    (stepMsg cfg idx s d ts).1.total = s.total + 1 := by
  unfold stepMsg emitBad
  cases d with
  | none => simp
  | some obj =>
    cases hid : lookupJ obj cfg.messageIDField with
    | none => simp [hid]
    | some idVal =>
      cases hex : extractString idVal with
      | none => simp [hid, hex]
      | some msgID =>
        cases hrv : resultSentOf cfg obj with
        | none => simp [hid, hex, hrv, foundUpd_total]
        | some rsu =>
          cases hsr : lookupIdx idx msgID with
          | none => simp [hid, hex, hrv, hsr, foundUpd_total]
          | some srcRec =>
            simp only [hid, hex, hrv, hsr]
            split_ifs <;> simp [foundUpd_total]

theorem stepMsg_okbad (cfg : MeasureCfg) (idx : Index) (s : LoopState)
    (d : Option JMap) (ts : Int) :
    (stepMsg cfg idx s d ts).1.okCount + (stepMsg cfg idx s d ts).1.badCount
      = s.okCount + s.badCount + 1 := by
  unfold stepMsg emitBad
  cases d with
  | none => simp; omega
  | some obj =>
    cases hid : lookupJ obj cfg.messageIDField with
    | none => simp [hid]; omega
    | some idVal =>
      cases hex : extractString idVal with
      | none => simp [hid, hex]; omega
      | some msgID =>
        cases hrv : resultSentOf cfg obj with
        | none => simp [hid, hex, hrv, foundUpd_okCount, foundUpd_badCount]; omega
        | some rsu =>
          cases hsr : lookupIdx idx msgID with
          | none => simp [hid, hex, hrv, hsr, foundUpd_okCount, foundUpd_badCount]; omega
          | some srcRec =>
            simp only [hid, hex, hrv, hsr]
            split_ifs <;> simp [foundUpd_okCount, foundUpd_badCount] <;> omega

theorem stepMsg_reclen (cfg : MeasureCfg) (idx : Index) (s : LoopState)
    (d : Option JMap) (ts : Int) :
    (stepMsg cfg idx s d ts).1.records.length = s.records.length + 1 := by
  unfold stepMsg emitBad
  cases d with
  | none => simp
  | some obj =>
    cases hid : lookupJ obj cfg.messageIDField with
    | none => simp [hid]
    | some idVal =>
      cases hex : extractString idVal with
      | none => simp [hid, hex]
      | some msgID =>
        cases hrv : resultSentOf cfg obj with
        | none => simp [hid, hex, hrv, foundUpd_records]
        | some rsu =>
          cases hsr : lookupIdx idx msgID with
          | none => simp [hid, hex, hrv, hsr, foundUpd_records]
          | some srcRec =>
            simp only [hid, hex, hrv, hsr]
            split_ifs <;> simp [foundUpd_records]

theorem stepMsg_stop (cfg : MeasureCfg) (idx : Index) (s : LoopState)
    (d : Option JMap) (ts : Int) :
    (stepMsg cfg idx s d ts).2 = true →
      idx.length ≤ (stepMsg cfg idx s d ts).1.foundCount := by
  unfold stepMsg emitBad
  cases d with
  | none => simp
  | some obj =>
    cases hid : lookupJ obj cfg.messageIDField with
    | none => simp [hid]
    | some idVal =>
      cases hex : extractString idVal with
      | none => simp [hid, hex]
      | some msgID =>
        cases hrv : resultSentOf cfg obj with
        | none => intro h; simp_all [hid, hex, hrv]
        | some rsu =>
          cases hsr : lookupIdx idx msgID with
          | none => intro h; simp_all [hid, hex, hrv, hsr]
          | some srcRec =>
            simp only [hid, hex, hrv, hsr]
            split_ifs <;> (intro h; simp_all)

theorem stepMsg_found (cfg : MeasureCfg) (idx : Index) (s : LoopState)
    (d : Option JMap) (ts : Int) :
    ((stepMsg cfg idx s d ts).1.found = s.found ∧
      (stepMsg cfg idx s d ts).1.foundCount = s.foundCount) ∨
    (∃ m, (lookupIdx idx m).isSome = true ∧ m ∉ s.found ∧
      (stepMsg cfg idx s d ts).1.found = s.found ++ [m] ∧
      (stepMsg cfg idx s d ts).1.foundCount = s.foundCount + 1) := by
  unfold stepMsg emitBad
  cases d with
  | none => exact Or.inl ⟨rfl, rfl⟩
  | some obj =>
    cases hid : lookupJ obj cfg.messageIDField with
    | none => exact Or.inl (by simp [hid])
    | some idVal =>
      cases hex : extractString idVal with
      | none => exact Or.inl (by simp [hid, hex])
      | some msgID =>
        rcases foundUpd_cases idx msgID { s with total := s.total + 1 }
          with hc | ⟨h1, h2, h3⟩
        · refine Or.inl ⟨?_, ?_⟩ <;>
          · cases hrv : resultSentOf cfg obj with
            | none => simp [hid, hex, hrv, hc]
            | some rsu =>
              cases hsr : lookupIdx idx msgID with
              | none => simp [hid, hex, hrv, hsr, hc]
              | some srcRec =>
                simp only [hid, hex, hrv, hsr]
                split_ifs <;> simp [hc]
        · have h2' : msgID ∉ s.found := h2
          refine Or.inr ⟨msgID, h1, h2', ?_, ?_⟩ <;>
          · cases hrv : resultSentOf cfg obj with
            | none => simp [hid, hex, hrv, h3]
            | some rsu =>
              cases hsr : lookupIdx idx msgID with
              | none => simp [hid, hex, hrv, hsr, h3]
              | some srcRec =>
                simp only [hid, hex, hrv, hsr]
                split_ifs <;> simp [h3]

/-! ## Run-level lemmas. -/

theorem runLoop_counts (cfg : MeasureCfg) (idx : Index) :
    ∀ (inputs : List LoopInput) (s0 : LoopState),
      s0.total = s0.okCount + s0.badCount → s0.records.length = s0.total →
      (runLoop cfg idx inputs s0).2.total
          = (runLoop cfg idx inputs s0).2.okCount
            + (runLoop cfg idx inputs s0).2.badCount ∧
      (runLoop cfg idx inputs s0).2.records.length
          = (runLoop cfg idx inputs s0).2.total := by
  intro inputs
  induction inputs with
  | nil => intro s0 h1 h2; exact ⟨h1, h2⟩
  | cons i rest ih =>
    intro s0 h1 h2
    cases i with
    | deadline => exact ⟨h1, h2⟩
    | empty => exact ih s0 h1 h2
    | fatal e => exact ⟨h1, h2⟩
    | msg d ts =>
      have ht := stepMsg_total cfg idx s0 d ts
      have ho := stepMsg_okbad cfg idx s0 d ts
      have hr := stepMsg_reclen cfg idx s0 d ts
      rcases hsm : stepMsg cfg idx s0 d ts with ⟨s', stop⟩
      rw [hsm] at ht ho hr
      have ht' : s'.total = s0.total + 1 := ht
      have ho' : s'.okCount + s'.badCount = s0.okCount + s0.badCount + 1 := ho
      have hr' : s'.records.length = s0.records.length + 1 := hr
      have h1' : s'.total = s'.okCount + s'.badCount := by omega
      have h2' : s'.records.length = s'.total := by omega
      simp only [runLoop, hsm]
      cases stop with
      | true => exact ⟨h1', h2'⟩
      | false => simpa using ih s' h1' h2'

theorem runLoop_allFound_grew (cfg : MeasureCfg) (idx : Index) :
    ∀ (inputs : List LoopInput) (s0 : LoopState),
      (runLoop cfg idx inputs s0).1 = .allFound →
      s0.records.length < (runLoop cfg idx inputs s0).2.records.length := by
  intro inputs
  induction inputs with
  | nil => intro s0 h; exact ExitReason.noConfusion h
  | cons i rest ih =>
    intro s0 h
    cases i with
    | deadline => exact ExitReason.noConfusion h
    | empty => exact ih s0 h
    | fatal e => exact ExitReason.noConfusion h
    | msg d ts =>
      have hr := stepMsg_reclen cfg idx s0 d ts
      rcases hsm : stepMsg cfg idx s0 d ts with ⟨s', stop⟩
      rw [hsm] at hr
      have hr' : s'.records.length = s0.records.length + 1 := hr
      rw [show runLoop cfg idx (.msg d ts :: rest) s0
            = if stop then (.allFound, s') else runLoop cfg idx rest s'
          from by simp [runLoop, hsm]] at h ⊢
      cases stop with
      | true =>
        have hlt : s0.records.length < s'.records.length := by omega
        simpa using hlt
      | false =>
        simp only [Bool.false_eq_true, if_false] at h ⊢
        have hstep := ih s' h
        omega

theorem lookupIdx_eq_none_iff (idx : Index) (k : String) :
    lookupIdx idx k = none ↔ k ∉ idxKeys idx := by
  induction idx with
  | nil => simp [lookupIdx, idxKeys]
  | cons p rest ih =>
    rcases p with ⟨k', r⟩
    by_cases hk : k' = k <;> simp [lookupIdx, idxKeys, hk, ih] <;>
      simp [idxKeys] at ih ⊢ <;> tauto

theorem lookupIdx_isSome_mem (idx : Index) (k : String)
    (h : (lookupIdx idx k).isSome = true) : k ∈ idxKeys idx := by
  by_contra hmem
  rw [← lookupIdx_eq_none_iff] at hmem
  rw [hmem] at h
  exact Bool.noConfusion h

theorem processLine_cases (idF sF u : String) (idx : Index)
    (st : SourceIndexStats) (ln : SrcLine) :
    ((processLine idF sF u (idx, st) ln).1 = idx ∧
      (processLine idF sF u (idx, st) ln).2.indexed = st.indexed) ∨
    (∃ i e r, lineEntry idF sF u ln = some (i, e, r) ∧ lookupIdx idx i = none ∧
      (processLine idF sF u (idx, st) ln).1 = idx ++ [(i, ⟨e, r⟩)] ∧
      (processLine idF sF u (idx, st) ln).2.indexed = st.indexed + 1) := by
  unfold processLine
  cases hle : lineEntry idF sF u ln with
  | none => exact Or.inl ⟨by simp [hle], by simp [hle]⟩
  | some t =>
    rcases t with ⟨i, e, r⟩
    by_cases hlk : (lookupIdx idx i).isSome = true
    · exact Or.inl ⟨by simp [hle, hlk], by simp [hle, hlk]⟩
    · have hnone : lookupIdx idx i = none := by
        cases hv : lookupIdx idx i with
        | none => rfl
        | some v => rw [hv] at hlk; exact absurd rfl hlk
      exact Or.inr ⟨i, e, r, rfl, hnone,
        by simp [hle, hnone], by simp [hle, hnone]⟩

theorem load_fold_nodup_indexed (idF sF u : String) :
    ∀ (lines : List SrcLine) (idx : Index) (st : SourceIndexStats),
      (idxKeys idx).Nodup →
      (idxKeys (lines.foldl (processLine idF sF u) (idx, st)).1).Nodup ∧
      (lines.foldl (processLine idF sF u) (idx, st)).2.indexed + idx.length
        = (lines.foldl (processLine idF sF u) (idx, st)).1.length + st.indexed := by
  intro lines
  induction lines with
  | nil =>
    intro idx st h
    simp only [List.foldl_nil]
    exact ⟨h, by omega⟩
  | cons ln rest ih =>
    intro idx st h
    have hfold : (ln :: rest).foldl (processLine idF sF u) (idx, st)
        = rest.foldl (processLine idF sF u) (processLine idF sF u (idx, st) ln) := rfl
    rcases processLine_cases idF sF u idx st ln with ⟨he1, he2⟩ |
      ⟨i, e, r, hle, hnone, he1, he2⟩
    · rcases hpl : processLine idF sF u (idx, st) ln with ⟨idx', st'⟩
      rw [hpl] at he1 he2
      have he1' : idx' = idx := he1
      have he2' : st'.indexed = st.indexed := he2
      have hih := ih idx' st' (by rw [he1']; exact h)
      rw [hfold, hpl]
      have hl : idx'.length = idx.length := by rw [he1']
      exact ⟨hih.1, by omega⟩
    · rcases hpl : processLine idF sF u (idx, st) ln with ⟨idx', st'⟩
      rw [hpl] at he1 he2
      have he1' : idx' = idx ++ [(i, ⟨e, r⟩)] := he1
      have he2' : st'.indexed = st.indexed + 1 := he2
      subst he1'
      have hmem : i ∉ idxKeys idx := (lookupIdx_eq_none_iff idx i).1 hnone
      have hnd : (idxKeys (idx ++ [(i, (⟨e, r⟩ : SourceRecord))])).Nodup := by
        simp only [idxKeys, List.map_append, List.map_cons, List.map_nil]
        rw [List.nodup_append]
        refine ⟨by simpa [idxKeys] using h, List.nodup_singleton _, ?_⟩
        intro a ha hb
        rw [List.mem_singleton.1 hb] at ha
        exact hmem (by simpa [idxKeys] using ha)
      have hih := ih (idx ++ [(i, ⟨e, r⟩)]) st' hnd
      rw [hfold, hpl]
      have hlen : (idx ++ [(i, (⟨e, r⟩ : SourceRecord))]).length = idx.length + 1 := by
        simp
      exact ⟨hih.1, by omega⟩

theorem runLoop_found_inv (cfg : MeasureCfg) (idx : Index) :
    ∀ (inputs : List LoopInput) (s0 : LoopState),
      (∀ x ∈ s0.found, x ∈ idxKeys idx) → s0.found.Nodup →
      s0.foundCount = s0.found.length →
      (∀ x ∈ (runLoop cfg idx inputs s0).2.found, x ∈ idxKeys idx) ∧
      (runLoop cfg idx inputs s0).2.found.Nodup ∧
      (runLoop cfg idx inputs s0).2.foundCount
        = (runLoop cfg idx inputs s0).2.found.length := by
  intro inputs
  induction inputs with
  | nil => intro s0 h1 h2 h3; exact ⟨h1, h2, h3⟩
  | cons i rest ih =>
    intro s0 h1 h2 h3
    cases i with
    | deadline => exact ⟨h1, h2, h3⟩
    | empty => exact ih s0 h1 h2 h3
    | fatal e => exact ⟨h1, h2, h3⟩
    | msg d ts =>
      rcases hsm : stepMsg cfg idx s0 d ts with ⟨s', stop⟩
      have hf := stepMsg_found cfg idx s0 d ts
      rw [hsm] at hf
      have hinv : (∀ x ∈ s'.found, x ∈ idxKeys idx) ∧ s'.found.Nodup ∧
          s'.foundCount = s'.found.length := by
        rcases hf with ⟨hfe, hce⟩ | ⟨m, hm1, hm2, hm3, hm4⟩
        · have hfe' : s'.found = s0.found := hfe
          have hce' : s'.foundCount = s0.foundCount := hce
          rw [hfe', hce']; exact ⟨h1, h2, h3⟩
        · have hm3' : s'.found = s0.found ++ [m] := hm3
          have hm4' : s'.foundCount = s0.foundCount + 1 := hm4
          rw [hm3', hm4']
          refine ⟨?_, ?_, ?_⟩
          · intro x hx
            rcases List.mem_append.1 hx with hx | hx
            · exact h1 x hx
            · rw [List.mem_singleton.1 hx]
              exact lookupIdx_isSome_mem idx m hm1
          · simp [List.nodup_append, h2, hm2]
          · simp [h3]
      simp only [runLoop, hsm]
      cases stop with
      | true => exact hinv
      | false => simpa using ih s' hinv.1 hinv.2.1 hinv.2.2

theorem filter_not_mem_length (keys found : List String)
    (hnk : keys.Nodup) (hnf : found.Nodup) (hsub : ∀ x ∈ found, x ∈ keys) :
    (keys.filter (fun k => !(decide (k ∈ found)))).length + found.length
      = keys.length := by
  have hpart := List.length_eq_length_filter_add (l := keys)
    (fun k => decide (k ∈ found))
  have hperm : List.Perm (keys.filter (fun k => decide (k ∈ found))) found := by
    refine (List.perm_ext_iff_of_nodup (hnk.filter _) hnf).2 ?_
    intro a
    simp only [List.mem_filter, decide_eq_true_eq]
    exact ⟨fun h => h.2, fun h => ⟨hsub a h, h⟩⟩
  have hlen := hperm.length_eq
  omega

theorem insertSorted_length (x : String) (l : List String) :
    (insertSorted x l).length = l.length + 1 := by
  induction l with
  | nil => rfl
  | cons y ys ih => unfold insertSorted; split_ifs <;> simp [ih]

theorem sortStrs_length (l : List String) : (sortStrs l).length = l.length := by
  induction l with
  | nil => rfl
  | cons x xs ih => simp [sortStrs, insertSorted_length, ih]

theorem lostManifest_length (idx : Index) (found : List String)
    (hnk : (idxKeys idx).Nodup) (hnf : found.Nodup)
    (hsub : ∀ x ∈ found, x ∈ idxKeys idx) :
    (lostManifest idx found).length + found.length = idx.length := by
  unfold lostManifest
  have hf := filter_not_mem_length (idxKeys idx) found hnk hnf hsub
  have hkl : (idxKeys idx).length = idx.length := by simp [idxKeys]
  simp only [List.length_map, sortStrs_length]
  omega

/-! ## Claim C10: one record and one counter per dequeued message. -/

/-- C10: every dequeued message increments the read counter, increments
exactly one of the ok/bad counters, and appends exactly one output record;
hence `total_read = ok + bad` holds throughout the loop, and the stats file
written at loop exit satisfies it with `total_read` equal to the number of
records written. -/
theorem total_read_eq_ok_plus_bad (cfg : MeasureCfg) (idx : Index)
    (inputs : List LoopInput) (s : LoopState) (d : Option JMap) (ts : Int)
    (h1 : s.total = s.okCount + s.badCount)
    (h2 : s.records.length = s.total) :
    (stepMsg cfg idx s d ts).1.total = s.total + 1 ∧
    (stepMsg cfg idx s d ts).1.okCount + (stepMsg cfg idx s d ts).1.badCount
      = s.okCount + s.badCount + 1 ∧
    (stepMsg cfg idx s d ts).1.records.length = s.records.length + 1 ∧
    (stepMsg cfg idx s d ts).1.total
      = (stepMsg cfg idx s d ts).1.okCount + (stepMsg cfg idx s d ts).1.badCount ∧
    (∀ st ∈ (runMeasure cfg idx inputs).statsWrites,
      st.totalRead = st.okCount + st.badCount ∧
      st.totalRead = (runMeasure cfg idx inputs).recordsOut.length) := by
  have ht := stepMsg_total cfg idx s d ts
  have ho := stepMsg_okbad cfg idx s d ts
  have hr := stepMsg_reclen cfg idx s d ts
  refine ⟨ht, ho, hr, by omega, ?_⟩
  have hrc := runLoop_counts cfg idx inputs initState rfl rfl
  unfold runMeasure
  rcases hlr : runLoop cfg idx inputs initState with ⟨ex, sf⟩
  rw [hlr] at hrc
  have hrc1 : sf.total = sf.okCount + sf.badCount := hrc.1
  have hrc2 : sf.records.length = sf.total := hrc.2
  cases ex <;> simp <;> omega

/-- Witness for C10 on a concrete message and run. -/
theorem total_read_eq_ok_plus_bad_witness :
    (stepMsg wCfg wIdx initState (some wObj) 2000000).1.total = 1 ∧
    (stepMsg wCfg wIdx initState (some wObj) 2000000).1.okCount
      + (stepMsg wCfg wIdx initState (some wObj) 2000000).1.badCount = 1 ∧
    (stepMsg wCfg wIdx initState (some wObj) 2000000).1.records.length = 1 := by
  have h := total_read_eq_ok_plus_bad wCfg wIdx [.deadline] initState
    (some wObj) 2000000 rfl rfl
  exact ⟨h.1, h.2.1, h.2.2.1⟩

/-! ## Claim C7: all-found stop only after the record is written. -/

/-- C7: the all-found stop is signalled only when the post-update found count
has reached the index size, an iteration that signals it has appended its
record, and a loop exiting with STOPPED(all_found) has strictly grown the
record sequence — the stop is honored only after the current record is
recorded. -/
theorem allFound_stop_after_record (cfg : MeasureCfg) (idx : Index)
    (s : LoopState) (d : Option JMap) (ts : Int)
    (inputs : List LoopInput) (s0 : LoopState)
    (hstop : (stepMsg cfg idx s d ts).2 = true)
    (hexit : (runLoop cfg idx inputs s0).1 = .allFound) :
    idx.length ≤ (stepMsg cfg idx s d ts).1.foundCount ∧
    (stepMsg cfg idx s d ts).1.records.length = s.records.length + 1 ∧
    s0.records.length < (runLoop cfg idx inputs s0).2.records.length :=
  ⟨stepMsg_stop cfg idx s d ts hstop, stepMsg_reclen cfg idx s d ts,
    runLoop_allFound_grew cfg idx inputs s0 hexit⟩

/-- Witness for C7: a message carrying the last missing id stops the loop
with its record written; the pre-state found count was still below target. -/
theorem allFound_stop_after_record_witness :
    (stepMsg wCfg wIdx initState (some wObj) 2000000).2 = true ∧
    initState.foundCount < wIdx.length ∧
    1 ≤ (stepMsg wCfg wIdx initState (some wObj) 2000000).1.foundCount ∧
    (stepMsg wCfg wIdx initState (some wObj) 2000000).1.records.length = 1 ∧
    initState.records.length
      < (runLoop wCfg wIdx [.msg (some wObj) 2000000] initState).2.records.length := by
  have h := allFound_stop_after_record wCfg wIdx initState (some wObj) 2000000
    [.msg (some wObj) 2000000] initState (by decide) (by decide)
  exact ⟨by decide, by decide, h.1, h.2.1, h.2.2⟩

/-! ## Claim C5: found-set containment and complementarity. -/

/-- C5: for an index built by `loadSourceIndex`, the found set stays inside
the index keys at every point of the loop (ids not in the index are never
added), and the lost-manifest length plus the found count equals the indexed
count, regardless of stop reason. -/
theorem foundSet_subset_complement (idF sF u : String) (lines : List SrcLine)
    (idx : Index) (st : SourceIndexStats) (cfg : MeasureCfg)
    (inputs : List LoopInput)
    (hload : loadSourceIndex idF sF u lines = (idx, st)) :
    (∀ x ∈ (runLoop cfg idx inputs initState).2.found, x ∈ idxKeys idx) ∧
    (lostManifest idx (runLoop cfg idx inputs initState).2.found).length
      + (runLoop cfg idx inputs initState).2.foundCount = st.indexed := by
  have hload' : lines.foldl (processLine idF sF u) ([], ⟨0, 0, 0, 0⟩)
      = (idx, st) := hload
  have hfold := load_fold_nodup_indexed idF sF u lines [] ⟨0, 0, 0, 0⟩
    (by simp [idxKeys])
  rw [hload'] at hfold
  have hnk : (idxKeys idx).Nodup := hfold.1
  have hidx : st.indexed = idx.length := by
    have h2 := hfold.2
    simpa using h2
  have hinv := runLoop_found_inv cfg idx inputs initState
    (by intro x hx; exact absurd hx (List.not_mem_nil x)) List.nodup_nil rfl
  have hlost := lostManifest_length idx (runLoop cfg idx inputs initState).2.found
    hnk hinv.2.1 hinv.1
  exact ⟨hinv.1, by omega⟩

/-- Witness for C5 on a concrete one-record dump and a timed-out run. -/
theorem foundSet_subset_complement_witness :
    (∀ x ∈ (runLoop wCfg wIdx [.deadline] initState).2.found, x ∈ idxKeys wIdx) ∧
    (lostManifest wIdx (runLoop wCfg wIdx [.deadline] initState).2.found).length
      + (runLoop wCfg wIdx [.deadline] initState).2.foundCount = 1 :=
  foundSet_subset_complement "message_id" "sent_epoch" "us" wLines wIdx
    ⟨1, 1, 0, 0⟩ wCfg [.deadline] (by decide)

/-! ## Claim C6: duplicate ids in the source dump. -/

/-- C6: a dump of two valid lines sharing one id indexes the first and counts
the second as a duplicate — `indexed = 1`, `duplicates = 1`, no bad lines,
and the retained record carries the first line's trimmed raw bytes and epoch;
the second occurrence never overwrites the first. -/
theorem loadSourceIndex_dedup (idF sF u : String) (l1 l2 : SrcLine)
    (i : String) (e1 e2 : Int) (r1 r2 : String)
    (h1 : lineEntry idF sF u l1 = some (i, e1, r1))
    (h2 : lineEntry idF sF u l2 = some (i, e2, r2)) :
    loadSourceIndex idF sF u [l1, l2] = ([(i, ⟨e1, r1⟩)], ⟨2, 1, 0, 1⟩) ∧
    lookupIdx (loadSourceIndex idF sF u [l1, l2]).1 i = some ⟨e1, r1⟩ := by
  have s1 : processLine idF sF u ([], ⟨0, 0, 0, 0⟩) l1
      = ([(i, ⟨e1, r1⟩)], ⟨1, 1, 0, 0⟩) := by
    simp [processLine, h1, lookupIdx]
  have s2 : processLine idF sF u ([(i, (⟨e1, r1⟩ : SourceRecord))], ⟨1, 1, 0, 0⟩) l2
      = ([(i, ⟨e1, r1⟩)], ⟨2, 1, 0, 1⟩) := by
    simp [processLine, h2, lookupIdx]
  have hrun : loadSourceIndex idF sF u [l1, l2]
      = processLine idF sF u (processLine idF sF u ([], ⟨0, 0, 0, 0⟩) l1) l2 := rfl
  rw [hrun, s1, s2]
  exact ⟨rfl, by simp [lookupIdx]⟩

/-- Witness for C6: two concrete valid lines with the same id `a`. -/
theorem loadSourceIndex_dedup_witness :
    loadSourceIndex "message_id" "sent_epoch" "us" [wDupLine1, wDupLine2]
      = ([("a", ⟨1000000, "l1"⟩)], ⟨2, 1, 0, 1⟩) ∧
    lookupIdx
      (loadSourceIndex "message_id" "sent_epoch" "us" [wDupLine1, wDupLine2]).1 "a"
      = some ⟨1000000, "l1"⟩ :=
  loadSourceIndex_dedup "message_id" "sent_epoch" "us" wDupLine1 wDupLine2
    "a" 1000000 2000000 "l1" "l2" (by decide) (by decide)

/-! ## Claim C2: the lost manifest and the loop's stop reasons. -/

/-- Counterexample to C2: a run aborted by a fatal transport error on the
dequeue primitive returns immediately — the lost manifest is not computed or
written at all (zero lost-manifest writes), contradicting "written exactly
once ... for any reason". -/
theorem lost_manifest_skipped_on_fatal :
    (runMeasure wCfg wIdx [.fatal "boom"]).exit = .fatalErr "boom" ∧
    (runMeasure wCfg wIdx [.fatal "boom"]).lostWrites = [] ∧
    (runMeasure wCfg wIdx [.fatal "boom"]).err = some "boom" :=
  ⟨rfl, rfl, rfl⟩

/-- C2 (amended): when the loop stops by timeout or by all-found, the lost
manifest — raw bytes of every indexed id not in the found set, id-sorted —
is computed and written exactly once; a fatal transport error aborts before
the exporter runs. -/
theorem lost_manifest_written_once_on_loop_exit (cfg : MeasureCfg)
    (idx : Index) (inputs : List LoopInput)
    (h : (runLoop cfg idx inputs initState).1 = .timeout ∨
         (runLoop cfg idx inputs initState).1 = .allFound) :
    (runMeasure cfg idx inputs).lostWrites
      = [lostManifest idx (runLoop cfg idx inputs initState).2.found] ∧
    (runMeasure cfg idx inputs).lostWrites.length = 1 := by
  unfold runMeasure
  rcases hr : runLoop cfg idx inputs initState with ⟨ex, sf⟩
  rw [hr] at h
  have hex : ex = .timeout ∨ ex = .allFound := h
  rcases hex with hex | hex <;> subst hex <;> exact ⟨rfl, rfl⟩

/-- Witness for the amended C2 on a concrete timed-out run. -/
theorem lost_manifest_written_once_witness :
    (runMeasure wCfg wIdx [.deadline]).lostWrites
      = [lostManifest wIdx (runLoop wCfg wIdx [.deadline] initState).2.found] ∧
    (runMeasure wCfg wIdx [.deadline]).lostWrites.length = 1 :=
  lost_manifest_written_once_on_loop_exit wCfg wIdx [.deadline]
    (Or.inl (by decide))
